import Mathlib

/-!
Verification development for the lyric-karaoke typing game.

Strings from the TypeScript source are modelled as `List Char`; JavaScript
numbers are modelled as exact rationals (`ℚ`); `Math.round` is modelled by
`jsRound` (floor of `x + 1/2`, which is what `Math.round` computes on every
finite input).  Character-level operations (`toLowerCase`, `trim`) are
modelled on the ASCII range actually exercised by the claims.
-/

attribute [local semireducible] Rat.add Rat.mul Rat.inv Rat.sub Rat.ofScientific

namespace Karaoke

/-! ## Scoring utilities (src/utils/scoring.ts) -/

/-- Character codes removed by the first `replace` in `removePunctuation`:
the regex character class holds `. , ! ? ; : ' " ( ) - { }`. -/
def punctCodes1 : List Nat := [46, 44, 33, 63, 59, 58, 39, 34, 40, 41, 45, 123, 125]

/-- Model of `removePunctuation`: strips the fixed punctuation class, then a
second `replace` strips the bracket characters `[` (91) and `]` (93). -/
def removePunctuation (text : List Char) : List Char :=
  (text.filter (fun c => !(punctCodes1.contains c.toNat))).filter
    (fun c => !(c.toNat == 91 || c.toNat == 93))

/-- Model of `String.prototype.toLowerCase` (ASCII range). -/
def jsToLower (text : List Char) : List Char :=
  text.map Char.toLower

/-- Model of `String.prototype.trim`: drop leading and trailing whitespace. -/
def jsTrim (text : List Char) : List Char :=
  ((text.dropWhile Char.isWhitespace).reverse.dropWhile Char.isWhitespace).reverse

/-- Model of `Math.max` on rationals (computable by kernel reduction). -/
def jsMax (a b : ℚ) : ℚ :=
  if a ≤ b then b else a

/-- Model of `Math.min` on rationals (computable by kernel reduction). -/
def jsMin (a b : ℚ) : ℚ :=
  if a ≤ b then a else b

/-- Model of `Math.abs` on rationals (computable by kernel reduction). -/
def jsAbs (a : ℚ) : ℚ :=
  if a < 0 then -a else a

/-- The recurrence of `levenshteinDistance`: the dynamic-programming matrix
of the source fills exactly this recurrence (`matrix[i][j]` from its three
neighbours, with unit cost for substitution, insertion and deletion).  The
fuel argument only makes the recursion structural (every call consumes one
unit while the summed length shrinks), so `levenshteinDistance` below never
exhausts it. -/
def levenshteinDistanceFuel : ℕ → List Char → List Char → ℕ
  | _, [], bs => bs.length
  | _, as, [] => as.length
  | 0, _, _ => 0
  | fuel + 1, a :: as, b :: bs =>
    if a = b then
      levenshteinDistanceFuel fuel as bs
    else
      min (levenshteinDistanceFuel fuel as bs + 1)
        (min (levenshteinDistanceFuel fuel (a :: as) bs + 1)
          (levenshteinDistanceFuel fuel as (b :: bs) + 1))

/-- Model of `levenshteinDistance`. -/
def levenshteinDistance (a b : List Char) : ℕ :=
  levenshteinDistanceFuel (a.length + b.length) a b

/-- Model of `calculateCharacterAccuracy`.  `!expected` / `!typed` are the
JavaScript empty-string falsiness tests. -/
def calculateCharacterAccuracy (typed expected : List Char) : ℚ :=
  if expected = [] then (if typed = [] then 1 else 0)
  else if typed = [] then 0
  else
    let normalizedTyped := removePunctuation (jsTrim (jsToLower typed))
    let normalizedExpected := removePunctuation (jsTrim (jsToLower expected))
    if normalizedTyped = normalizedExpected then 1
    else
      let distance := levenshteinDistance normalizedTyped normalizedExpected
      let maxLength := max normalizedTyped.length normalizedExpected.length
      jsMax 0 (1 - (distance : ℚ) / (maxLength : ℚ))

/-- The five timing verdicts. -/
inductive TimingResult where
  | perfect
  | early
  | late
  | too_early
  | too_late
deriving DecidableEq, Repr

/-- Difficulty settings bundle (src/types/index.ts). -/
structure DifficultySettings where
  name : List Char
  description : List Char
  perfectWindow : ℚ
  goodWindow : ℚ
  earlyPenalty : ℚ
  latePenalty : ℚ
  tooEarlyPenalty : ℚ
  tooLatePenalty : ℚ
  baseScoreMultiplier : ℚ
  comboMultiplier : ℚ
deriving DecidableEq, Repr

inductive Difficulty where
  | easy
  | medium
  | hard
deriving DecidableEq, Repr

/-- The `DIFFICULTY_SETTINGS` record from src/types/index.ts. -/
def DIFFICULTY_SETTINGS : Difficulty → DifficultySettings
  | .easy =>
    { name := "Easy".toList
      description := "Relaxed timing, forgiving penalties".toList
      perfectWindow := 500
      goodWindow := 1500
      earlyPenalty := 0.9
      latePenalty := 0.85
      tooEarlyPenalty := 0.7
      tooLatePenalty := 0.6
      baseScoreMultiplier := 0.8
      comboMultiplier := 1.05 }
  | .medium =>
    { name := "Medium".toList
      description := "Balanced timing and penalties".toList
      perfectWindow := 300
      goodWindow := 800
      earlyPenalty := 0.8
      latePenalty := 0.75
      tooEarlyPenalty := 0.5
      tooLatePenalty := 0.4
      baseScoreMultiplier := 1.0
      comboMultiplier := 1.1 }
  | .hard =>
    { name := "Hard".toList
      description := "Tight timing, harsh penalties".toList
      perfectWindow := 150
      goodWindow := 400
      earlyPenalty := 0.6
      latePenalty := 0.5
      tooEarlyPenalty := 0.2
      tooLatePenalty := 0.1
      baseScoreMultiplier := 1.5
      comboMultiplier := 1.2 }

/-- Model of `calculateTimingResult`. -/
def calculateTimingResult (typedTimeMs expectedTimeMs : ℚ)
    (settings : DifficultySettings) : TimingResult :=
  let diff := typedTimeMs - expectedTimeMs
  if jsAbs diff ≤ settings.perfectWindow then .perfect
  else if diff < -settings.goodWindow then .too_early
  else if diff < 0 then .early
  else if diff > settings.goodWindow then .too_late
  else .late

/-- Model of `getTimingMultiplier`. -/
def getTimingMultiplier (timingResult : TimingResult)
    (settings : DifficultySettings) : ℚ :=
  match timingResult with
  | .perfect => 1.0
  | .early => settings.earlyPenalty
  | .late => settings.latePenalty
  | .too_early => settings.tooEarlyPenalty
  | .too_late => settings.tooLatePenalty

/-- Model of JavaScript `Math.round`: halves round toward positive infinity,
so on every finite input the result is the floor of `x + 1/2`. -/
def jsRound (x : ℚ) : ℤ :=
  ⌊x + 1 / 2⌋

/-- The `LineResult` record from src/types/index.ts. -/
structure LineResult where
  lineIndex : ℤ
  typedText : List Char
  expectedText : List Char
  characterAccuracy : ℚ
  timingResult : TimingResult
  timingScore : ℚ
  score : ℤ
  combo : ℕ
deriving DecidableEq, Repr

/-- Model of `calculateLineScore` (the seven-argument version the game engine
calls; `lineEndTimeMs` is accepted but never read by the body). -/
def calculateLineScore (typed expected : List Char)
    (typedTimeMs expectedTimeMs lineEndTimeMs : ℚ)
    (combo : ℕ) (difficulty : Difficulty) : LineResult :=
  let settings := DIFFICULTY_SETTINGS difficulty
  let characterAccuracy := calculateCharacterAccuracy typed expected
  let timingResult := calculateTimingResult typedTimeMs expectedTimeMs settings
  let timingScore := getTimingMultiplier timingResult settings
  let isPerfect := characterAccuracy ≥ 0.95 ∧ timingResult = .perfect
  let newCombo := if isPerfect then combo + 1 else 0
  let comboBonus := 1 + ((combo : ℚ) * (settings.comboMultiplier - 1) * 0.1)
  let baseScore : ℚ := 1000
  let accuracyComponent := characterAccuracy * 0.6
  let timingComponent := timingScore * 0.3
  let comboComponent := jsMin comboBonus 2 * 0.1
  let score := jsRound (baseScore * (accuracyComponent + timingComponent + comboComponent) *
    settings.baseScoreMultiplier)
  { lineIndex := 0
    typedText := typed
    expectedText := expected
    characterAccuracy := characterAccuracy
    timingResult := timingResult
    timingScore := timingScore
    score := score
    combo := newCombo }

/-! ## LRC parsing (src/utils/lrcParser.ts) -/

/-- The `LyricLine` record from src/types/index.ts: start time in
milliseconds, text, and an optional derived end time. -/
structure LyricLine where
  time : ℕ
  text : List Char
  endTime : Option ℕ := none
deriving DecidableEq, Repr, Inhabited

/-- Model of splitting on the regex `\r?\n`: separators are a lone newline or
a carriage return followed by a newline. -/
def splitLines : List Char → List (List Char)
  | [] => [[]]
  | [c] => if c.toNat = 10 then [[], []] else [[c]]
  | a :: b :: rest =>
    if a.toNat = 13 ∧ b.toNat = 10 then [] :: splitLines rest
    else if a.toNat = 10 then [] :: splitLines (b :: rest)
    else
      match splitLines (b :: rest) with
      | [] => [[a]]
      | l :: ls => (a :: l) :: ls

/-- ASCII letter test, case-insensitive (the `[a-z]+` of the metadata regex
under the `i` flag). -/
def isAsciiLetter (c : Char) : Bool :=
  (65 ≤ c.toNat && c.toNat ≤ 90) || (97 ≤ c.toNat && c.toNat ≤ 122)

/-- Characters the JavaScript `.` never matches (line terminators). -/
def isLineTerminator (c : Char) : Bool :=
  c.toNat == 10 || c.toNat == 13 || c.toNat == 8232 || c.toNat == 8233

/-- Model of the test `line.match(/^\[([a-z]+):(.+)\]$/i) != null`: the line
is `[`, one or more letters, `:`, at least one non-terminator character, and
a final `]`.  Only the boolean outcome is modelled: the extracted metadata
key/value pairs feed the `metadata` record, which no claim mentions. -/
def isMetadataLine (l : List Char) : Bool :=
  match l with
  | c :: rest =>
    if c.toNat = 91 then
      let letters := rest.takeWhile isAsciiLetter
      match rest.drop letters.length with
      | d :: mid =>
        d.toNat == 58 && !letters.isEmpty && mid.length ≥ 2 &&
          mid.getLast? == some (Char.ofNat 93) &&
          (mid.dropLast.all (fun e => !isLineTerminator e))
      | [] => false
    else false
  | [] => false

/-- Model of one attempted match of `\[(\d{2}):(\d{2})\.(\d{2,3})\]` at the
head of the list.  On success, returns the tag's time in milliseconds (the
`exec`-loop body: 2-digit fractions are scaled by 10) and the number of
characters the match consumed (10 or 11).  The greedy `\d{2,3}` takes three
digits when a `]` follows them, else falls back to two digits. -/
def matchTimestampAt : List Char → Option (ℕ × ℕ)
  | b :: m1 :: m2 :: c :: s1 :: s2 :: d :: f1 :: f2 :: rest =>
    if b.toNat = 91 ∧ c.toNat = 58 ∧ d.toNat = 46 ∧
        m1.isDigit ∧ m2.isDigit ∧ s1.isDigit ∧ s2.isDigit ∧ f1.isDigit ∧ f2.isDigit then
      let minutes := 10 * (m1.toNat - 48) + (m2.toNat - 48)
      let seconds := 10 * (s1.toNat - 48) + (s2.toNat - 48)
      let base := (minutes * 60 + seconds) * 1000
      match rest with
      | f3 :: rest2 =>
        if f3.isDigit then
          match rest2 with
          | e :: _ =>
            if e.toNat = 93 then
              some (base + (100 * (f1.toNat - 48) + 10 * (f2.toNat - 48) + (f3.toNat - 48)), 11)
            else none
          | [] => none
        else if f3.toNat = 93 then
          some (base + (10 * (f1.toNat - 48) + (f2.toNat - 48)) * 10, 10)
        else none
      | [] => none
    else none
  | _ => none

/-- Model of the `while ((match = timestampRegex.exec(line)) !== null)` loop
together with `line.replace(timestampRegex, '')`: scan left to right, at each
position attempting a timestamp match; collect matched tags in order and keep
the unmatched characters as the stripped text.  The fuel argument only makes
the recursion structural (each step consumes at least one character while
spending one unit of fuel), so `scanTimestamps` below never exhausts it. -/
def scanTimestampsFuel : ℕ → List Char → List ℕ × List Char
  | _, [] => ([], [])
  | 0, l => ([], l)
  | fuel + 1, c :: cs =>
    match matchTimestampAt (c :: cs) with
    | some (t, n) =>
      let p := scanTimestampsFuel fuel ((c :: cs).drop n)
      (t :: p.1, p.2)
    | none =>
      let p := scanTimestampsFuel fuel cs
      (p.1, c :: p.2)

def scanTimestamps (l : List Char) : List ℕ × List Char :=
  scanTimestampsFuel l.length l

/-- The per-line body of the `for (const line of lrcLines)` loop: blank lines
and metadata lines yield nothing; otherwise one `LyricLine` is produced per
timestamp tag, unless the text is empty after stripping the tags. -/
def lineEntries (line : List Char) : List LyricLine :=
  if jsTrim line = [] then []
  else if isMetadataLine line then []
  else
    let scanned := scanTimestamps line
    let lyricsText := jsTrim scanned.2
    if lyricsText = [] then []
    else scanned.1.map (fun t => { time := t, text := lyricsText, endTime := none })

/-- All `LyricLine` entries pushed by the parsing loop, in push order
(before sorting). -/
def preSortEntries (input : List Char) : List LyricLine :=
  ((splitLines input).map lineEntries).flatten

/-- Stable insertion used by `sortLines`: a new element goes after every
already-placed element with a smaller-or-equal start time. -/
def insertByTime (x : LyricLine) : List LyricLine → List LyricLine
  | [] => [x]
  | y :: ys => if y.time < x.time then y :: insertByTime x ys else x :: y :: ys

/-- Model of `lines.sort((a, b) => a.time - b.time)`.  `Array.prototype.sort`
is a stable sort under this comparator, and all stable sorts by the same key
agree, so this stable insertion sort computes exactly the source's result. -/
def sortLines : List LyricLine → List LyricLine
  | [] => []
  | x :: xs => insertByTime x (sortLines xs)

/-- The end-time pass: every line's `endTime` becomes the next line's start;
the last line's becomes its own start plus 5000. -/
def assignEndTimes : List LyricLine → List LyricLine
  | [] => []
  | [l] => [{ l with endTime := some (l.time + 5000) }]
  | l1 :: l2 :: rest => { l1 with endTime := some l2.time } :: assignEndTimes (l2 :: rest)

/-- Model of `parseLRC`, restricted to its `lines` output (the `metadata`
record is not modelled; no claim mentions it). -/
def parseLRC (input : List Char) : List LyricLine :=
  assignEndTimes (sortLines (preSortEntries input))

/-- Model of the `for (let i = lines.length - 1; i >= 0; i--)` loop of
`getCurrentLineIndex`: `lineAtAux lines t n` scans indices `n-1, n-2, …, 0`
and returns the first (i.e. greatest) index whose start time is at most `t`,
or `-1`. -/
def lineAtAux (lines : List LyricLine) (t : ℚ) : ℕ → ℤ
  | 0 => -1
  | n + 1 =>
    if ((lines.getD n default).time : ℚ) ≤ t then (n : ℤ) else lineAtAux lines t n

/-- Model of `getCurrentLineIndex`. -/
def getCurrentLineIndex (lines : List LyricLine) (currentTimeMs : ℚ) : ℤ :=
  lineAtAux lines currentTimeMs lines.length

/-! ## Game engine (src/hooks/useGameEngine.ts and src/stores/gameStore.ts) -/

inductive TypingMode where
  | normal
  | strict
  | assist
deriving DecidableEq, Repr

inductive GameStatus where
  | idle
  | loading
  | countdown
  | playing
  | paused
  | finished
deriving DecidableEq, Repr

/-- The slice of the zustand game store (plus the `lastTypedTextRef` of
`useGameEngine`) that the tick, typing, Enter-key and manual-submit handlers
read and write. -/
structure GameState where
  status : GameStatus
  difficulty : Difficulty
  lyrics : Option (List LyricLine)
  currentLineIndex : ℤ
  typedText : List Char
  lastTypedText : List Char
  combo : ℕ
  score : ℤ
  maxCombo : ℕ
  isLineCompleted : Bool
  lineResults : List LineResult
  lyricsOffset : ℚ
  typingMode : TypingMode
  showAutoSubmitNotification : Bool
deriving DecidableEq, Repr

/-- JavaScript `endTime || fallback`: `undefined` and `0` are both falsy. -/
def jsOrTime (endTime : Option ℕ) (fallback : ℕ) : ℕ :=
  match endTime with
  | some e => if e = 0 then fallback else e
  | none => fallback

/-- The store's `submitLine` action.  Setting `typedText` to empty triggers
the effect that resets `lastTypedTextRef`, so both are cleared. -/
def submitLineStore (s : GameState) (result : LineResult) : GameState :=
  { s with lineResults := s.lineResults ++ [result]
           score := s.score + result.score
           combo := result.combo
           maxCombo := max s.maxCombo result.combo
           typedText := []
           lastTypedText := [] }

/-- The store's `setCurrentLineIndex` action (also clears the completion
lock and the typed buffer; the index-change effect resets the ref). -/
def setCurrentLineIndexStore (s : GameState) (index : ℤ) : GameState :=
  { s with currentLineIndex := index
           isLineCompleted := false
           typedText := []
           lastTypedText := [] }

/-- The expected-time arguments the engine passes to `calculateLineScore` for
a given line: target is `line.time`, line end is `line.endTime || line.time + 5000`. -/
def scoreLine (s : GameState) (line : LyricLine) (typed : List Char)
    (audioTime : ℚ) (lineIndex : ℤ) : LineResult :=
  let result := calculateLineScore typed line.text audioTime (line.time : ℚ)
    ((jsOrTime line.endTime (line.time + 5000) : ℕ) : ℚ) s.combo s.difficulty
  { result with lineIndex := lineIndex }

/-- Model of the per-tick line-tracking effect (useGameEngine lines 54-92):
recompute the active line from the offset-adjusted time; when it moved and
the previous active line has no judgment yet, auto-judge the previous line at
the raw audio time, then advance the index. -/
def tickStep (s : GameState) (audioTime : ℚ) : GameState :=
  match s.lyrics with
  | none => s
  | some lines =>
    if s.status = .playing then
      let adjustedTime := audioTime + s.lyricsOffset
      let newIndex := getCurrentLineIndex lines adjustedTime
      if newIndex ≠ s.currentLineIndex ∧ 0 ≤ newIndex then
        let s1 :=
          if 0 ≤ s.currentLineIndex ∧ s.currentLineIndex < (lines.length : ℤ) then
            let currentLine := lines.getD s.currentLineIndex.toNat default
            if s.lineResults.any (fun r => r.lineIndex == s.currentLineIndex) then s
            else
              let s2 := submitLineStore s
                (scoreLine s currentLine s.typedText audioTime s.currentLineIndex)
              { s2 with showAutoSubmitNotification := true }
          else s
        setCurrentLineIndexStore s1 newIndex
      else s
    else s

/-- The strict-policy branch of `handleTyping`: a proposed buffer shorter
than the previous one (a deletion) is rejected and the previous buffer is
kept unchanged. -/
def strictApply (prev proposed : List Char) : List Char :=
  if proposed.length < prev.length then prev else proposed

/-- The assist-policy punctuation class, the character codes of the regex
class `. , ! ? ; : ' " ( ) [ ] { } - EN-DASH EM-DASH ELLIPSIS`. -/
def punctuationTest (c : Char) : Bool :=
  [46, 44, 33, 63, 59, 58, 39, 34, 40, 41, 91, 93, 123, 125, 45,
    8211, 8212, 8230].contains c.toNat

/-- The assist-policy alignment loop of `handleTyping`: walk the typed and
expected texts together; where the expected character is punctuation the
typed character does not match, inject the expected punctuation without
consuming a typed character; once the typed stream is exhausted, append the
run of expected punctuation not yet reached. -/
def assistAlign : List Char → List Char → List Char
  | t :: ts, e :: es =>
    if punctuationTest e && !(t == e) then e :: assistAlign (t :: ts) es
    else t :: assistAlign ts es
  | [], es => es.takeWhile punctuationTest
  | _ :: _, [] => []
termination_by typed expected => typed.length + expected.length
decreasing_by
  all_goals simp [List.length_cons]
  all_goals omega

/-- The assist branch of `handleTyping`: the alignment runs only when the
proposed buffer is non-empty (`typingMode === 'assist' &&
processedText.length > 0`). -/
def assistApply (expected proposed : List Char) : List Char :=
  if 0 < proposed.length then assistAlign proposed expected else proposed

/-- Model of `handleTyping`: the policy pipeline (strict rejection, assist
alignment guarded by a non-empty buffer), the buffer update, and the
early-completion check that locks and judges the line on an exact
normalized match. -/
def handleTypingStep (s : GameState) (text : List Char) (audioTime : ℚ) : GameState :=
  if s.status = .playing then
    match s.lyrics with
    | none => s
    | some lines =>
      if 0 ≤ s.currentLineIndex ∧ s.currentLineIndex < (lines.length : ℤ) then
        if s.isLineCompleted then s
        else
          let currentLine := lines.getD s.currentLineIndex.toNat default
          let processed1 := if s.typingMode = .strict then strictApply s.lastTypedText text else text
          let processedText :=
            if s.typingMode = .assist then assistApply currentLine.text processed1
            else processed1
          let s1 := { s with typedText := processedText, lastTypedText := processedText }
          let normalizedTyped := jsToLower (removePunctuation processedText)
          let normalizedTarget := jsToLower (removePunctuation currentLine.text)
          if normalizedTyped = normalizedTarget ∧ normalizedTyped ≠ [] then
            let s2 := { s1 with isLineCompleted := true }
            submitLineStore s2 (scoreLine s currentLine processedText audioTime s.currentLineIndex)
          else s1
      else s
  else s

/-- Model of `handleSubmitLine` (manual submit): judge the active line on
demand, a no-op when a result for the current index already exists.  (An
active index at or beyond the timeline length would fault in the source; it
is unreachable and modelled as a no-op.) -/
def handleSubmitLineStep (s : GameState) (audioTime : ℚ) : GameState :=
  if s.status = .playing then
    match s.lyrics with
    | none => s
    | some lines =>
      if s.currentLineIndex < 0 then s
      else if (lines.length : ℤ) ≤ s.currentLineIndex then s
      else
        let currentLine := lines.getD s.currentLineIndex.toNat default
        if s.lineResults.any (fun r => r.lineIndex == s.currentLineIndex) then s
        else submitLineStore s (scoreLine s currentLine s.typedText audioTime s.currentLineIndex)
  else s

/-- Model of `handleInputKey` for Enter: clears the buffer when the line is
not completed. -/
def handleEnterStep (s : GameState) : GameState :=
  if s.status = .playing then
    if s.isLineCompleted then s
    else { s with typedText := [], lastTypedText := [] }
  else s

/-- The event alphabet driving the session: time ticks, keystroke buffer
updates (which may early-complete), manual submits, and the Enter key. -/
inductive GameEvent where
  | tick (audioTime : ℚ)
  | typing (text : List Char) (audioTime : ℚ)
  | manualSubmit (audioTime : ℚ)
  | enterKey
deriving Repr

def stepEvent (s : GameState) : GameEvent → GameState
  | .tick t => tickStep s t
  | .typing text t => handleTypingStep s text t
  | .manualSubmit t => handleSubmitLineStep s t
  | .enterKey => handleEnterStep s

def runEvents (s : GameState) (events : List GameEvent) : GameState :=
  events.foldl stepEvent s

/-! ## Helper lemmas -/

theorem jsMax_eq_max (a b : ℚ) : jsMax a b = max a b := by
  simp [jsMax, max_def]

theorem jsMin_eq_min (a b : ℚ) : jsMin a b = min a b := by
  simp [jsMin, min_def]

theorem jsAbs_eq_abs (a : ℚ) : jsAbs a = |a| := by
  rcases lt_or_le a 0 with h | h
  · simp [jsAbs, h, abs_of_neg h]
  · simp [jsAbs, not_lt.mpr h, abs_of_nonneg h]

theorem accuracy_nonneg (typed expected : List Char) :
    0 ≤ calculateCharacterAccuracy typed expected := by
  unfold calculateCharacterAccuracy
  simp only [jsMax_eq_max]
  split_ifs
  all_goals norm_num

theorem accuracy_le_one (typed expected : List Char) :
    calculateCharacterAccuracy typed expected ≤ 1 := by
  unfold calculateCharacterAccuracy
  simp only [jsMax_eq_max]
  split_ifs
  all_goals try norm_num
  positivity

theorem timingMultiplier_nonneg (v : TimingResult) (d : Difficulty) :
    0 ≤ getTimingMultiplier v (DIFFICULTY_SETTINGS d) := by
  cases v <;> cases d <;> norm_num [getTimingMultiplier, DIFFICULTY_SETTINGS]

theorem baseScoreMultiplier_nonneg (d : Difficulty) :
    0 ≤ (DIFFICULTY_SETTINGS d).baseScoreMultiplier := by
  cases d <;> norm_num [DIFFICULTY_SETTINGS]

theorem comboMultiplier_ge_one (d : Difficulty) :
    1 ≤ (DIFFICULTY_SETTINGS d).comboMultiplier := by
  cases d <;> norm_num [DIFFICULTY_SETTINGS]

theorem jsRound_nonneg {q : ℚ} (h : 0 ≤ q) : 0 ≤ jsRound q := by
  unfold jsRound
  exact Int.floor_nonneg.mpr (by linarith)

theorem lineAtAux_lt (lines : List LyricLine) (t : ℚ) (n : ℕ) :
    lineAtAux lines t n < (n : ℤ) := by
  induction n with
  | zero => simp [lineAtAux]
  | succ n ih =>
    unfold lineAtAux
    split
    · push_cast
      omega
    · have : (n : ℤ) < (n + 1 : ℕ) := by push_cast; omega
      omega

theorem lineAtAux_spec (lines : List LyricLine) (t : ℚ) (n : ℕ) :
    (lineAtAux lines t n = -1 ∧
      ∀ i < n, ¬((lines.getD i default).time : ℚ) ≤ t)
    ∨ (∃ i : ℕ, i < n ∧ lineAtAux lines t n = (i : ℤ) ∧
        ((lines.getD i default).time : ℚ) ≤ t ∧
        ∀ j, i < j → j < n → ¬((lines.getD j default).time : ℚ) ≤ t) := by
  induction n with
  | zero => exact Or.inl ⟨rfl, by omega⟩
  | succ n ih =>
    by_cases hc : ((lines.getD n default).time : ℚ) ≤ t
    · refine Or.inr ⟨n, by omega, ?_, hc, by omega⟩
      unfold lineAtAux
      rw [if_pos hc]
    · rcases ih with ⟨heq, hall⟩ | ⟨i, hin, heq, hci, hmax⟩
      · refine Or.inl ⟨?_, ?_⟩
        · unfold lineAtAux
          rw [if_neg hc]
          exact heq
        · intro i hi
          rcases Nat.lt_succ_iff_lt_or_eq.mp hi with h | h
          · exact hall i h
          · subst h
            exact hc
      · refine Or.inr ⟨i, by omega, ?_, hci, ?_⟩
        · unfold lineAtAux
          rw [if_neg hc]
          exact heq
        · intro j hij hj
          rcases Nat.lt_succ_iff_lt_or_eq.mp hj with h | h
          · exact hmax j hij h
          · subst h
            exact hc

theorem lineAtAux_mono (lines : List LyricLine) {t1 t2 : ℚ} (h : t1 ≤ t2) (n : ℕ) :
    lineAtAux lines t1 n ≤ lineAtAux lines t2 n := by
  induction n with
  | zero => simp [lineAtAux]
  | succ n ih =>
    by_cases hc1 : ((lines.getD n default).time : ℚ) ≤ t1
    · have hc2 : ((lines.getD n default).time : ℚ) ≤ t2 := le_trans hc1 h
      unfold lineAtAux
      rw [if_pos hc1, if_pos hc2]
    · by_cases hc2 : ((lines.getD n default).time : ℚ) ≤ t2
      · unfold lineAtAux
        rw [if_neg hc1, if_pos hc2]
        have := lineAtAux_lt lines t1 n
        omega
      · unfold lineAtAux
        rw [if_neg hc1, if_neg hc2]
        exact ih

/-! ## Claim theorems -/

/-- Claim C10: the `lineEndTimeMs` argument of `calculateLineScore` is never
read by the body — for any two values of it, with every other argument held
equal, the returned `LineResult` records are identical. -/
theorem lineEndTime_unused (typed expected : List Char)
    (typedTimeMs expectedTimeMs e1 e2 : ℚ) (combo : ℕ) (difficulty : Difficulty) :
    calculateLineScore typed expected typedTimeMs expectedTimeMs e1 combo difficulty =
      calculateLineScore typed expected typedTimeMs expectedTimeMs e2 combo difficulty :=
  rfl

/-- Claim C4: `calculateCharacterAccuracy` lies in `[0,1]`; empty expected
text yields 1 exactly when the typed text is empty too; empty typed text
against non-empty expected yields 0; otherwise it is 1 on exact normalized
equality and `1 - levenshtein/maxLen` floored at 0; and every non-empty
string scores 1 against itself. -/
theorem characterAccuracy_spec (typed expected : List Char) :
    (0 ≤ calculateCharacterAccuracy typed expected ∧
      calculateCharacterAccuracy typed expected ≤ 1)
    ∧ (expected = [] →
        calculateCharacterAccuracy typed expected = (if typed = [] then 1 else 0))
    ∧ (typed = [] → expected ≠ [] → calculateCharacterAccuracy typed expected = 0)
    ∧ (typed ≠ [] → expected ≠ [] →
        calculateCharacterAccuracy typed expected =
          (if removePunctuation (jsTrim (jsToLower typed)) =
              removePunctuation (jsTrim (jsToLower expected)) then 1
           else
             jsMax 0 (1 -
               (levenshteinDistance (removePunctuation (jsTrim (jsToLower typed)))
                   (removePunctuation (jsTrim (jsToLower expected))) : ℚ) /
                 ((max (removePunctuation (jsTrim (jsToLower typed))).length
                   (removePunctuation (jsTrim (jsToLower expected))).length : ℕ) : ℚ))))
    ∧ (typed ≠ [] → calculateCharacterAccuracy typed typed = 1) := by
  refine ⟨⟨accuracy_nonneg typed expected, accuracy_le_one typed expected⟩, ?_, ?_, ?_, ?_⟩
  · intro he
    simp [calculateCharacterAccuracy, he]
  · intro ht he
    simp [calculateCharacterAccuracy, ht, he]
  · intro ht he
    simp [calculateCharacterAccuracy, ht, he]
  · intro ht
    simp [calculateCharacterAccuracy, ht]

theorem characterAccuracy_spec_witness :
    calculateCharacterAccuracy [] "abc".toList = 0 :=
  (characterAccuracy_spec [] "abc".toList).2.2.1 rfl (by decide)

/-- Claim C3: `calculateTimingResult` checks, on `diff = judgedAtMs -
targetMs` and in this order: `|diff| ≤ perfectWindow` gives `perfect`, else
`diff < -goodWindow` gives `too_early`, else `diff < 0` gives `early`, else
`diff > goodWindow` gives `too_late`, else `late`; under `0 ≤ perfectWindow <
goodWindow` (the difficulty-profile invariant) the five verdict regions are
the stated contiguous non-overlapping intervals covering every `diff`, so
each `diff` maps to exactly one verdict. -/
theorem timingResult_partition (settings : DifficultySettings)
    (h0 : 0 ≤ settings.perfectWindow)
    (hpg : settings.perfectWindow < settings.goodWindow)
    (typedTimeMs expectedTimeMs : ℚ) :
    (calculateTimingResult typedTimeMs expectedTimeMs settings = .perfect ↔
      |typedTimeMs - expectedTimeMs| ≤ settings.perfectWindow)
    ∧ (calculateTimingResult typedTimeMs expectedTimeMs settings = .too_early ↔
      typedTimeMs - expectedTimeMs < -settings.goodWindow)
    ∧ (calculateTimingResult typedTimeMs expectedTimeMs settings = .early ↔
      -settings.goodWindow ≤ typedTimeMs - expectedTimeMs ∧
        typedTimeMs - expectedTimeMs < -settings.perfectWindow)
    ∧ (calculateTimingResult typedTimeMs expectedTimeMs settings = .late ↔
      settings.perfectWindow < typedTimeMs - expectedTimeMs ∧
        typedTimeMs - expectedTimeMs ≤ settings.goodWindow)
    ∧ (calculateTimingResult typedTimeMs expectedTimeMs settings = .too_late ↔
      settings.goodWindow < typedTimeMs - expectedTimeMs) := by
  unfold calculateTimingResult
  simp only [jsAbs_eq_abs]
  split_ifs with h1 h2 h3 h4
  · obtain ⟨ha, hb⟩ := abs_le.mp h1
    exact ⟨iff_of_true rfl h1,
      iff_of_false (by simp) (by intro hc; linarith),
      iff_of_false (by simp) (by rintro ⟨hc, hd⟩; linarith),
      iff_of_false (by simp) (by rintro ⟨hc, hd⟩; linarith),
      iff_of_false (by simp) (by intro hc; linarith)⟩
  · exact ⟨iff_of_false (by simp) h1,
      iff_of_true rfl h2,
      iff_of_false (by simp) (by rintro ⟨hc, hd⟩; linarith),
      iff_of_false (by simp) (by rintro ⟨hc, hd⟩; linarith),
      iff_of_false (by simp) (by intro hc; linarith)⟩
  · have hp : settings.perfectWindow < -(typedTimeMs - expectedTimeMs) := by
      have := not_le.mp h1
      rwa [abs_of_neg h3] at this
    exact ⟨iff_of_false (by simp) h1,
      iff_of_false (by simp) h2,
      iff_of_true rfl ⟨not_lt.mp h2, by linarith⟩,
      iff_of_false (by simp) (by rintro ⟨hc, hd⟩; linarith),
      iff_of_false (by simp) (by intro hc; linarith)⟩
  · exact ⟨iff_of_false (by simp) h1,
      iff_of_false (by simp) h2,
      iff_of_false (by simp) (by rintro ⟨hc, hd⟩; linarith),
      iff_of_false (by simp) (by rintro ⟨hc, hd⟩; linarith),
      iff_of_true rfl h4⟩
  · have hnn : 0 ≤ typedTimeMs - expectedTimeMs := not_lt.mp h3
    have hp : settings.perfectWindow < typedTimeMs - expectedTimeMs := by
      have := not_le.mp h1
      rwa [abs_of_nonneg hnn] at this
    exact ⟨iff_of_false (by simp) h1,
      iff_of_false (by simp) h2,
      iff_of_false (by simp) (by rintro ⟨hc, hd⟩; linarith),
      iff_of_true rfl ⟨hp, not_lt.mp h4⟩,
      iff_of_false (by simp) h4⟩

theorem timingResult_partition_witness :
    calculateTimingResult 10250 10000 (DIFFICULTY_SETTINGS Difficulty.medium) =
      TimingResult.perfect :=
  ((timingResult_partition (DIFFICULTY_SETTINGS Difficulty.medium)
      (by decide) (by decide) 10250 10000).1).mpr (abs_le.mpr ⟨by decide, by decide⟩)

/-- Claim C1: `calculateLineScore` returns `comboAfter = comboBefore + 1`
exactly when `accuracy ≥ 0.95` and the timing verdict is `perfect`, and `0`
otherwise; its score equals `round(1000 * (accuracy*0.6 + timingScore*0.3 +
min(1 + comboBefore*(comboGrowthFactor-1)*0.1, 2)*0.1) * baseScoreMultiplier)`
and is non-negative; and on the medium profile with target 10000 ms, judged
at 10250 ms, typed text equal to the expected text and `comboBefore = 0`,
the verdict is `perfect`, `timingScore = 1`, `accuracy = 1`, `comboAfter = 1`
and `score = 1000`. -/
theorem lineScore_spec (typed expected : List Char)
    (typedTimeMs expectedTimeMs lineEndTimeMs : ℚ) (combo : ℕ)
    (difficulty : Difficulty) :
    ((calculateCharacterAccuracy typed expected ≥ 0.95 ∧
        calculateTimingResult typedTimeMs expectedTimeMs
          (DIFFICULTY_SETTINGS difficulty) = .perfect) →
      (calculateLineScore typed expected typedTimeMs expectedTimeMs lineEndTimeMs
        combo difficulty).combo = combo + 1)
    ∧ (¬(calculateCharacterAccuracy typed expected ≥ 0.95 ∧
        calculateTimingResult typedTimeMs expectedTimeMs
          (DIFFICULTY_SETTINGS difficulty) = .perfect) →
      (calculateLineScore typed expected typedTimeMs expectedTimeMs lineEndTimeMs
        combo difficulty).combo = 0)
    ∧ (calculateLineScore typed expected typedTimeMs expectedTimeMs lineEndTimeMs
        combo difficulty).score =
      jsRound (1000 * (calculateCharacterAccuracy typed expected * 0.6 +
        getTimingMultiplier (calculateTimingResult typedTimeMs expectedTimeMs
          (DIFFICULTY_SETTINGS difficulty)) (DIFFICULTY_SETTINGS difficulty) * 0.3 +
        jsMin (1 + (combo : ℚ) *
          ((DIFFICULTY_SETTINGS difficulty).comboMultiplier - 1) * 0.1) 2 * 0.1) *
        (DIFFICULTY_SETTINGS difficulty).baseScoreMultiplier)
    ∧ 0 ≤ (calculateLineScore typed expected typedTimeMs expectedTimeMs lineEndTimeMs
        combo difficulty).score
    ∧ ((calculateLineScore "hello".toList "hello".toList 10250 10000 15000 0
          Difficulty.medium).timingResult = .perfect
      ∧ (calculateLineScore "hello".toList "hello".toList 10250 10000 15000 0
          Difficulty.medium).timingScore = 1
      ∧ (calculateLineScore "hello".toList "hello".toList 10250 10000 15000 0
          Difficulty.medium).characterAccuracy = 1
      ∧ (calculateLineScore "hello".toList "hello".toList 10250 10000 15000 0
          Difficulty.medium).combo = 1
      ∧ (calculateLineScore "hello".toList "hello".toList 10250 10000 15000 0
          Difficulty.medium).score = 1000) := by
  refine ⟨?_, ?_, rfl, ?_, by decide, by decide, by decide, by decide, by decide⟩
  · intro h
    simp only [calculateLineScore, if_pos h]
  · intro h
    simp only [calculateLineScore, if_neg h]
  · have hacc := accuracy_nonneg typed expected
    have htm := timingMultiplier_nonneg
      (calculateTimingResult typedTimeMs expectedTimeMs (DIFFICULTY_SETTINGS difficulty))
      difficulty
    have hcm := comboMultiplier_ge_one difficulty
    have hbonus : (0 : ℚ) ≤ 1 + (combo : ℚ) *
        ((DIFFICULTY_SETTINGS difficulty).comboMultiplier - 1) * 0.1 := by
      have hprod : (0 : ℚ) ≤ (combo : ℚ) *
          ((DIFFICULTY_SETTINGS difficulty).comboMultiplier - 1) * 0.1 :=
        mul_nonneg (mul_nonneg (Nat.cast_nonneg _) (by linarith)) (by norm_num)
      linarith
    have hmin : (0 : ℚ) ≤ jsMin (1 + (combo : ℚ) *
        ((DIFFICULTY_SETTINGS difficulty).comboMultiplier - 1) * 0.1) 2 := by
      rw [jsMin_eq_min]
      exact le_min hbonus (by norm_num)
    show 0 ≤ jsRound _
    apply jsRound_nonneg
    have hsum : (0 : ℚ) ≤ calculateCharacterAccuracy typed expected * 0.6 +
        getTimingMultiplier (calculateTimingResult typedTimeMs expectedTimeMs
          (DIFFICULTY_SETTINGS difficulty)) (DIFFICULTY_SETTINGS difficulty) * 0.3 +
        jsMin (1 + (combo : ℚ) *
          ((DIFFICULTY_SETTINGS difficulty).comboMultiplier - 1) * 0.1) 2 * 0.1 := by
      have h1 : (0 : ℚ) ≤ calculateCharacterAccuracy typed expected * 0.6 :=
        mul_nonneg hacc (by norm_num)
      have h2 : (0 : ℚ) ≤ getTimingMultiplier (calculateTimingResult typedTimeMs
          expectedTimeMs (DIFFICULTY_SETTINGS difficulty))
          (DIFFICULTY_SETTINGS difficulty) * 0.3 := mul_nonneg htm (by norm_num)
      have h3 : (0 : ℚ) ≤ jsMin (1 + (combo : ℚ) *
          ((DIFFICULTY_SETTINGS difficulty).comboMultiplier - 1) * 0.1) 2 * 0.1 :=
        mul_nonneg hmin (by norm_num)
      linarith
    exact mul_nonneg (mul_nonneg (by norm_num) hsum)
      (baseScoreMultiplier_nonneg difficulty)

theorem lineScore_spec_witness :
    (calculateLineScore "hi".toList "hi".toList 500 450 1000 3 Difficulty.easy).combo = 4 ∧
    (calculateLineScore "hello".toList "hello".toList 10250 10000 15000 0
      Difficulty.medium).score = 1000 :=
  ⟨(lineScore_spec "hi".toList "hi".toList 500 450 1000 3 Difficulty.easy).1
      ⟨by decide, by decide⟩,
    (lineScore_spec "hello".toList "hello".toList 10250 10000 15000 0
      Difficulty.medium).2.2.2.2.2.2.2.2⟩

/-- Claim C6: `getCurrentLineIndex` returns the index of the last line whose
`startMs ≤ t` (and `-1` when no line has started, in particular when `t`
precedes the first line's start on a sorted timeline); at the exact boundary
`t = startMs` that line (or a later one) is selected, never an earlier one;
and the function is monotone non-decreasing in time. -/
theorem getCurrentLineIndex_spec (lines : List LyricLine) (t : ℚ) :
    ((getCurrentLineIndex lines t = -1 ∧
        ∀ i < lines.length, ¬((lines.getD i default).time : ℚ) ≤ t)
      ∨ (∃ i : ℕ, i < lines.length ∧ getCurrentLineIndex lines t = (i : ℤ) ∧
          ((lines.getD i default).time : ℚ) ≤ t ∧
          ∀ j, i < j → j < lines.length →
            ¬((lines.getD j default).time : ℚ) ≤ t))
    ∧ (∀ i < lines.length, ((lines.getD i default).time : ℚ) = t →
        (i : ℤ) ≤ getCurrentLineIndex lines t)
    ∧ (lines.Pairwise (fun a b => a.time ≤ b.time) → lines ≠ [] →
        t < ((lines.getD 0 default).time : ℚ) → getCurrentLineIndex lines t = -1)
    ∧ (∀ t2, t < t2 → getCurrentLineIndex lines t ≤ getCurrentLineIndex lines t2) := by
  refine ⟨lineAtAux_spec lines t lines.length, ?_, ?_, ?_⟩
  · intro i hi hit
    rcases lineAtAux_spec lines t lines.length with ⟨heq, hall⟩ | ⟨k, hk, heq, hck, hmax⟩
    · exact absurd (le_of_eq hit) (hall i hi)
    · unfold getCurrentLineIndex
      rw [heq]
      by_contra hcon
      push_cast at hcon
      exact hmax i (by omega) hi (le_of_eq hit)
  · intro hsort hne ht
    rcases lineAtAux_spec lines t lines.length with ⟨heq, _⟩ | ⟨k, hk, _, hck, _⟩
    · exact heq
    · exfalso
      have h0k : (lines.getD 0 default).time ≤ (lines.getD k default).time := by
        rcases Nat.eq_zero_or_pos k with hk0 | hk0
        · subst hk0
          exact le_refl _
        · have hlen : 0 < lines.length := by omega
          have := (List.pairwise_iff_get.mp hsort) ⟨0, hlen⟩ ⟨k, hk⟩ hk0
          rwa [List.getD_eq_get _ _ hlen, List.getD_eq_get _ _ hk]
      have : ((lines.getD 0 default).time : ℚ) ≤ t :=
        le_trans (by exact_mod_cast h0k) hck
      linarith
  · intro t2 ht
    exact lineAtAux_mono lines (le_of_lt ht) lines.length

theorem getCurrentLineIndex_spec_witness :
    getCurrentLineIndex [⟨0, [], none⟩, ⟨1000, [], none⟩] 500 ≤
      getCurrentLineIndex [⟨0, [], none⟩, ⟨1000, [], none⟩] 1500 ∧
    getCurrentLineIndex [⟨200, [], none⟩, ⟨1000, [], none⟩] 100 = -1 :=
  ⟨(getCurrentLineIndex_spec [⟨0, [], none⟩, ⟨1000, [], none⟩] 500).2.2.2 1500
      (by decide),
    (getCurrentLineIndex_spec [⟨200, [], none⟩, ⟨1000, [], none⟩] 100).2.2.1
      (by decide) (by decide) (by decide)⟩

theorem strictApply_length_le (prev proposed : List Char) :
    prev.length ≤ (strictApply prev proposed).length := by
  unfold strictApply
  split <;> omega

/-- Claim C8: under the strict policy a proposed buffer shorter than the
previous one is rejected, keeping the previous buffer unchanged; hence
across any sequence of consecutive keystroke updates the buffer length is
non-decreasing. -/
theorem strictPolicy_spec :
    (∀ prev proposed : List Char, proposed.length < prev.length →
      strictApply prev proposed = prev)
    ∧ (∀ prev proposed : List Char,
      prev.length ≤ (strictApply prev proposed).length)
    ∧ (∀ (init : List Char) (inputs : List (List Char)),
      List.Chain' (fun a b => a.length ≤ b.length)
        (List.scanl strictApply init inputs)) := by
  refine ⟨?_, strictApply_length_le, ?_⟩
  · intro prev proposed h
    unfold strictApply
    rw [if_pos h]
  · intro init inputs
    induction inputs generalizing init with
    | nil => simp [List.scanl]
    | cons a l ih =>
      rw [List.scanl_cons]
      apply List.chain'_cons'.mpr
      refine ⟨?_, ih (strictApply init a)⟩
      intro y hy
      have hh : (List.scanl strictApply (strictApply init a) l).head? =
          some (strictApply init a) := by
        cases l <;> simp [List.scanl]
      simp only [List.append_eq, List.nil_append] at hy
      rw [hh, Option.mem_def, Option.some.injEq] at hy
      rw [← hy]
      exact strictApply_length_le init a

theorem strictPolicy_spec_witness :
    strictApply "ab".toList "a".toList = "ab".toList :=
  strictPolicy_spec.1 "ab".toList "a".toList (by decide)

theorem assistAlign_filter (expected : List Char) :
    assistAlign (expected.filter (fun c => !punctuationTest c)) expected = expected := by
  induction expected with
  | nil => simp [assistAlign]
  | cons e es ih =>
    by_cases hp : punctuationTest e
    · have hf : (e :: es).filter (fun c => !punctuationTest c) =
          es.filter (fun c => !punctuationTest c) := by
        simp [hp]
      rw [hf]
      cases hts : es.filter (fun c => !punctuationTest c) with
      | nil =>
        have hall : ∀ c ∈ es, punctuationTest c := by
          intro c hc
          by_contra hcp
          have hmem : c ∈ es.filter (fun c => !punctuationTest c) :=
            List.mem_filter.mpr ⟨hc, by simp [hcp]⟩
          rw [hts] at hmem
          cases hmem
        show assistAlign [] (e :: es) = e :: es
        have htw : es.takeWhile punctuationTest = es :=
          List.takeWhile_eq_self_iff.mpr hall
        simp [assistAlign, hp, htw]
      | cons t ts =>
        have htp : punctuationTest t = false := by
          have hmem : t ∈ es.filter (fun c => !punctuationTest c) := by
            rw [hts]
            exact List.mem_cons_self t ts
          have := (List.mem_filter.mp hmem).2
          simpa using this
        have hne : (t == e) = false := by
          apply beq_eq_false_iff_ne.mpr
          intro hte
          rw [hte, hp] at htp
          cases htp
        rw [hts] at ih
        show assistAlign (t :: ts) (e :: es) = e :: es
        unfold assistAlign
        rw [if_pos (by simp [hp, hne])]
        rw [ih]
    · have hf : (e :: es).filter (fun c => !punctuationTest c) =
          e :: es.filter (fun c => !punctuationTest c) := by
        simp [hp]
      rw [hf]
      show assistAlign (e :: es.filter (fun c => !punctuationTest c)) (e :: es) = e :: es
      unfold assistAlign
      rw [if_neg (by simp [hp])]
      rw [ih]

/-- Claim C9 counterexample: for the expected line `"."` (no non-punctuation
characters), typing exactly its non-punctuation characters means typing the
empty buffer; the assist branch only runs on a non-empty buffer, so the
aligned buffer stays empty and its accuracy is `0`, not `1`. -/
theorem assistAccuracy_counterexample :
    ".".toList.filter (fun c => !punctuationTest c) = ([] : List Char) ∧
    calculateCharacterAccuracy
      (assistApply ".".toList (".".toList.filter (fun c => !punctuationTest c)))
      ".".toList = 0 := by
  constructor
  · decide
  · decide

/-- Claim C9 (amended): the assist alignment injects expected punctuation the
user did not type and appends trailing expected punctuation once the typed
stream is exhausted; consequently, for every expected line CONTAINING AT
LEAST ONE NON-PUNCTUATION CHARACTER, typing exactly its non-punctuation
characters yields an aligned buffer whose normalized accuracy is 1. -/
theorem assistAccuracy_amended (expected : List Char)
    (h : ∃ c ∈ expected, punctuationTest c = false) :
    calculateCharacterAccuracy
      (assistApply expected (expected.filter (fun c => !punctuationTest c)))
      expected = 1 := by
  have hne : expected.filter (fun c => !punctuationTest c) ≠ [] := by
    obtain ⟨c, hc, hcp⟩ := h
    intro hempty
    have hmem : c ∈ expected.filter (fun c => !punctuationTest c) :=
      List.mem_filter.mpr ⟨hc, by simp [hcp]⟩
    rw [hempty] at hmem
    cases hmem
  have hlen : 0 < (expected.filter (fun c => !punctuationTest c)).length :=
    List.length_pos.mpr hne
  have hexp : expected ≠ [] := by
    intro h0
    subst h0
    simp at hne
  unfold assistApply
  rw [if_pos hlen, assistAlign_filter]
  simp [calculateCharacterAccuracy, hexp]

theorem assistAccuracy_amended_witness :
    calculateCharacterAccuracy
      (assistApply "ab, cd!".toList
        ("ab, cd!".toList.filter (fun c => !punctuationTest c)))
      "ab, cd!".toList = 1 :=
  assistAccuracy_amended "ab, cd!".toList (by decide)

/-- Claim C2 is violated by the code: the per-tick auto-submit and the
manual submit do check for an existing result, but the early-completion path
of `handleTyping` guards only on `isLineCompleted`, which neither a manual
submit nor a seek-back re-activation sets.  First trace (time strictly
forward): line 0 becomes active, is manually submitted, and the learner then
types it perfectly — judgments end as `[0, 0]`.  Second trace (no manual
submit): line 0 is auto-judged by a tick, the clock seeks back to line 0,
and the learner types it perfectly — judgments end as `[0, 1, 0]`.  Both
give line 0 two judgments in one session. -/
theorem doubleJudgment_trace :
    ((runEvents
      { status := .playing
        difficulty := .medium
        lyrics := some [⟨0, "ab".toList, some 1000⟩, ⟨1000, "cd".toList, some 6000⟩]
        currentLineIndex := -1
        typedText := []
        lastTypedText := []
        combo := 0
        score := 0
        maxCombo := 0
        isLineCompleted := false
        lineResults := []
        lyricsOffset := 0
        typingMode := .normal
        showAutoSubmitNotification := false }
      [.tick 0, .manualSubmit 100,
        .typing "ab".toList 200]).lineResults.map (fun r => r.lineIndex)) =
      [0, 0]
    ∧ ((runEvents
      { status := .playing
        difficulty := .medium
        lyrics := some [⟨0, "ab".toList, some 1000⟩, ⟨1000, "cd".toList, some 6000⟩]
        currentLineIndex := -1
        typedText := []
        lastTypedText := []
        combo := 0
        score := 0
        maxCombo := 0
        isLineCompleted := false
        lineResults := []
        lyricsOffset := 0
        typingMode := .normal
        showAutoSubmitNotification := false }
      [.tick 0, .typing "x".toList 100, .tick 1500, .tick 0,
        .typing "ab".toList 200]).lineResults.map (fun r => r.lineIndex)) =
      [0, 1, 0] := by
  constructor
  · decide
  · decide

/-- Claim C7: on a tick the new active line index is computed from the
offset-adjusted time `audioTime + offsetMs`, while the auto-judgment of the
previous active line passes the raw unadjusted `audioTime` as `judgedAtMs`
and that line's `startMs` as `targetMs` — the offset affects line lookup
only, never the judged timestamp. -/
theorem tickOffset_spec (s : GameState) (lines : List LyricLine) (audioTime : ℚ)
    (hl : s.lyrics = some lines) (hs : s.status = .playing)
    (hchange : getCurrentLineIndex lines (audioTime + s.lyricsOffset) ≠ s.currentLineIndex)
    (hnew : 0 ≤ getCurrentLineIndex lines (audioTime + s.lyricsOffset))
    (hcur : 0 ≤ s.currentLineIndex ∧ s.currentLineIndex < (lines.length : ℤ))
    (hnot : s.lineResults.any (fun r => r.lineIndex == s.currentLineIndex) = false) :
    (tickStep s audioTime).currentLineIndex =
      getCurrentLineIndex lines (audioTime + s.lyricsOffset)
    ∧ (tickStep s audioTime).lineResults =
      s.lineResults ++ [{ calculateLineScore s.typedText
          (lines.getD s.currentLineIndex.toNat default).text
          audioTime
          ((lines.getD s.currentLineIndex.toNat default).time : ℚ)
          ((jsOrTime (lines.getD s.currentLineIndex.toNat default).endTime
            ((lines.getD s.currentLineIndex.toNat default).time + 5000) : ℕ) : ℚ)
          s.combo s.difficulty with lineIndex := s.currentLineIndex }] := by
  unfold tickStep
  simp only [hl]
  rw [if_pos hs, if_pos ⟨hchange, hnew⟩, if_pos hcur, if_neg (by simp [hnot])]
  constructor
  · simp [setCurrentLineIndexStore]
  · simp [setCurrentLineIndexStore, submitLineStore, scoreLine, calculateLineScore]

theorem tickOffset_spec_witness :
    (tickStep
      { status := .playing
        difficulty := .medium
        lyrics := some [⟨0, "ab".toList, some 1000⟩, ⟨1000, "cd".toList, some 6000⟩]
        currentLineIndex := 0
        typedText := "x".toList
        lastTypedText := "x".toList
        combo := 0
        score := 0
        maxCombo := 0
        isLineCompleted := false
        lineResults := []
        lyricsOffset := 250
        typingMode := .normal
        showAutoSubmitNotification := false }
      1500).currentLineIndex =
      getCurrentLineIndex [⟨0, "ab".toList, some 1000⟩, ⟨1000, "cd".toList, some 6000⟩]
        (1500 + 250) :=
  (tickOffset_spec
    { status := .playing
      difficulty := .medium
      lyrics := some [⟨0, "ab".toList, some 1000⟩, ⟨1000, "cd".toList, some 6000⟩]
      currentLineIndex := 0
      typedText := "x".toList
      lastTypedText := "x".toList
      combo := 0
      score := 0
      maxCombo := 0
      isLineCompleted := false
      lineResults := []
      lyricsOffset := 250
      typingMode := .normal
      showAutoSubmitNotification := false }
    [⟨0, "ab".toList, some 1000⟩, ⟨1000, "cd".toList, some 6000⟩]
    1500 rfl rfl (by decide) (by decide) (by decide) (by decide)).1

theorem insertByTime_perm (x : LyricLine) (l : List LyricLine) :
    (insertByTime x l).Perm (x :: l) := by
  induction l with
  | nil => exact List.Perm.refl _
  | cons y ys ih =>
    unfold insertByTime
    split
    · exact ((ih.cons y).trans (List.Perm.swap x y ys))
    · exact List.Perm.refl _

theorem sortLines_perm (l : List LyricLine) : (sortLines l).Perm l := by
  induction l with
  | nil => exact List.Perm.refl _
  | cons x xs ih =>
    exact (insertByTime_perm x (sortLines xs)).trans (ih.cons x)

theorem insertByTime_pairwise (x : LyricLine) (l : List LyricLine)
    (h : l.Pairwise (fun a b => a.time ≤ b.time)) :
    (insertByTime x l).Pairwise (fun a b => a.time ≤ b.time) := by
  induction l with
  | nil => simp [insertByTime]
  | cons y ys ih =>
    rw [List.pairwise_cons] at h
    obtain ⟨hy, hys⟩ := h
    unfold insertByTime
    split
    · rename_i hyx
      rw [List.pairwise_cons]
      refine ⟨?_, ih hys⟩
      intro z hz
      rcases List.mem_cons.mp ((insertByTime_perm x ys).mem_iff.mp hz) with hz2 | hz2
      · rw [hz2]
        exact le_of_lt hyx
      · exact hy z hz2
    · rename_i hyx
      rw [List.pairwise_cons]
      refine ⟨?_, List.pairwise_cons.mpr ⟨hy, hys⟩⟩
      intro z hz
      rcases List.mem_cons.mp hz with hz | hz
      · rw [hz]
        exact le_of_not_lt hyx
      · exact le_trans (le_of_not_lt hyx) (hy z hz)

theorem sortLines_sorted (l : List LyricLine) :
    (sortLines l).Pairwise (fun a b => a.time ≤ b.time) := by
  induction l with
  | nil => simp [sortLines]
  | cons x xs ih => exact insertByTime_pairwise x (sortLines xs) ih

theorem assignEndTimes_map_pair :
    ∀ l : List LyricLine,
      (assignEndTimes l).map (fun x => (x.time, x.text)) =
        l.map (fun x => (x.time, x.text))
  | [] => rfl
  | [_] => rfl
  | l1 :: l2 :: rest => by
    simp only [assignEndTimes, List.map_cons]
    rw [assignEndTimes_map_pair (l2 :: rest)]
    simp

theorem assignEndTimes_map_time (l : List LyricLine) :
    (assignEndTimes l).map (fun x => x.time) = l.map (fun x => x.time) := by
  have h := congrArg (List.map Prod.fst) (assignEndTimes_map_pair l)
  simpa [List.map_map, Function.comp] using h

theorem assignEndTimes_length (l : List LyricLine) :
    (assignEndTimes l).length = l.length := by
  have h := congrArg List.length (assignEndTimes_map_time l)
  simpa using h

theorem assignEndTimes_time (l : List LyricLine) (i : ℕ) (h : i < l.length) :
    ((assignEndTimes l).getD i default).time = (l.getD i default).time := by
  have hlen : i < (assignEndTimes l).length := by
    rw [assignEndTimes_length]
    exact h
  have h1 : ((assignEndTimes l)[i]?).map (fun x => x.time) =
      (l[i]?).map (fun x => x.time) := by
    rw [← List.getElem?_map, ← List.getElem?_map, assignEndTimes_map_time]
  rw [List.getElem?_eq_getElem hlen, List.getElem?_eq_getElem h] at h1
  simp at h1
  rw [List.getD_eq_getElem?_getD, List.getD_eq_getElem?_getD,
    List.getElem?_eq_getElem hlen, List.getElem?_eq_getElem h]
  simpa using h1

theorem assignEndTimes_endTime :
    ∀ (l : List LyricLine) (i : ℕ), i + 1 < l.length →
      ((assignEndTimes l).getD i default).endTime = some ((l.getD (i + 1) default).time)
  | [], _, h => by simp at h
  | [_], _, h => by simp at h
  | l1 :: l2 :: rest, 0, _ => by
    simp [assignEndTimes]
  | l1 :: l2 :: rest, i + 1, h => by
    have h2 : i + 1 < (l2 :: rest).length := by
      simp only [List.length_cons] at h ⊢
      omega
    show ((assignEndTimes (l2 :: rest)).getD i default).endTime =
      some (((l2 :: rest).getD (i + 1) default).time)
    exact assignEndTimes_endTime (l2 :: rest) i h2

theorem assignEndTimes_last :
    ∀ l : List LyricLine, l ≠ [] →
      ((assignEndTimes l).getD (l.length - 1) default).endTime =
        some (((assignEndTimes l).getD (l.length - 1) default).time + 5000)
  | [], h => absurd rfl h
  | [x], _ => by simp [assignEndTimes]
  | l1 :: l2 :: rest, _ => by
    have hlen : (l1 :: l2 :: rest).length - 1 = ((l2 :: rest).length - 1) + 1 := by
      simp only [List.length_cons]
      omega
    rw [hlen]
    show ((assignEndTimes (l2 :: rest)).getD ((l2 :: rest).length - 1) default).endTime =
      some (((assignEndTimes (l2 :: rest)).getD ((l2 :: rest).length - 1) default).time + 5000)
    exact assignEndTimes_last (l2 :: rest) (by simp)

/-- Claim C5: `parseLRC` emits one line per timestamp tag (with 2-digit
fractions scaled by 10 to milliseconds), drops lines whose text is empty
after stripping tags, sorts ascending by start time, and derives `endMs` as
the next line's `startMs` except for the last line, which gets `startMs +
5000`; parsing the concrete two-row input with a duplicated tag yields the
three lines of the claim. -/
theorem parseLRC_spec (input : List Char) :
    (parseLRC input).Pairwise (fun a b => a.time ≤ b.time)
    ∧ ((parseLRC input).map (fun l => (l.time, l.text))).Perm
        ((preSortEntries input).map (fun l => (l.time, l.text)))
    ∧ (∀ i : ℕ, i + 1 < (parseLRC input).length →
        ((parseLRC input).getD i default).endTime =
          some (((parseLRC input).getD (i + 1) default).time))
    ∧ (parseLRC input ≠ [] →
        ((parseLRC input).getD ((parseLRC input).length - 1) default).endTime =
          some (((parseLRC input).getD ((parseLRC input).length - 1) default).time + 5000))
    ∧ parseLRC "[00:12.50][00:12.50]Hello there\n[00:15.00]Next line".toList =
        [⟨12500, "Hello there".toList, some 12500⟩,
          ⟨12500, "Hello there".toList, some 15000⟩,
          ⟨15000, "Next line".toList, some 20000⟩] := by
  refine ⟨?_, ?_, ?_, ?_, by decide⟩
  · have hs := sortLines_sorted (preSortEntries input)
    have h1 : ((sortLines (preSortEntries input)).map (fun x => x.time)).Pairwise
        (· ≤ ·) := List.pairwise_map.mpr hs
    rw [← assignEndTimes_map_time] at h1
    exact List.pairwise_map.mp h1
  · show ((assignEndTimes (sortLines (preSortEntries input))).map
        (fun l => (l.time, l.text))).Perm _
    rw [assignEndTimes_map_pair]
    exact (sortLines_perm (preSortEntries input)).map _
  · intro i hi
    have hlen : i + 1 < (sortLines (preSortEntries input)).length := by
      have := assignEndTimes_length (sortLines (preSortEntries input))
      unfold parseLRC at hi
      omega
    show ((assignEndTimes (sortLines (preSortEntries input))).getD i default).endTime = _
    rw [assignEndTimes_endTime (sortLines (preSortEntries input)) i hlen,
      ← assignEndTimes_time (sortLines (preSortEntries input)) (i + 1) hlen]
    rfl
  · intro hne
    have hne2 : sortLines (preSortEntries input) ≠ [] := by
      intro h0
      unfold parseLRC at hne
      rw [h0] at hne
      exact hne rfl
    have hlen : (parseLRC input).length = (sortLines (preSortEntries input)).length :=
      assignEndTimes_length _
    show ((assignEndTimes (sortLines (preSortEntries input))).getD
        ((parseLRC input).length - 1) default).endTime = _
    rw [hlen]
    exact assignEndTimes_last (sortLines (preSortEntries input)) hne2

theorem parseLRC_spec_witness :
    ((parseLRC "[00:12.50][00:12.50]Hello there\n[00:15.00]Next line".toList).getD 0
        default).endTime =
      some (((parseLRC
        "[00:12.50][00:12.50]Hello there\n[00:15.00]Next line".toList).getD 1
          default).time) :=
  (parseLRC_spec "[00:12.50][00:12.50]Hello there\n[00:15.00]Next line".toList).2.2.1
    0 (by decide)

end Karaoke
